import Mathlib

/-!
Shallow embedding of `warehouse/synchronize/commands.py`: the metadata
normalization (`filter_dict`, `PyPIFetcher.version`), the record store
(`store_project`, `store`) over an explicit relational state, and the
full-catalog synchronization driver (`syncer`).  Each definition mirrors
the corresponding Python function; exceptions (remote calls, the session)
are made explicit: fallible steps return `Option`/`Except` and the
database session is threaded as explicit state.  Theorems at the end of
the file settle the specification claims about these functions.
-/

set_option autoImplicit false

namespace Warehouse

/-- Dynamically-typed Python values as they appear in the raw metadata
mappings handled by `filter_dict`: `None`, strings, and the collection
types named in its `isinstance` test (list, tuple, set; a Python set is
carried as its element list).  Collection elements are carried as strings,
which covers every collection-valued field the catalog produces
(classifiers, project_url, requires_external). -/
inductive Value where
  | none
  | str (s : String)
  | list (xs : List String)
  | tuple (xs : List String)
  | set (xs : List String)
deriving DecidableEq, Repr

/-- Python truthiness test `isinstance(value, (basestring, list, tuple, set))
and not value`: the value is a string or collection and it is empty. -/
def Value.isEmptySeq : Value → Bool
  | .str s => s == ""
  | .list xs => xs.isEmpty
  | .tuple xs => xs.isEmpty
  | .set xs => xs.isEmpty
  | .none => false

/-- Python membership test `value in ["None", "UNKNOWN"]` (list membership is
by equality, so only the two sentinel strings pass). -/
def Value.isSentinel : Value → Bool
  | .str s => s == "None" || s == "UNKNOWN"
  | _ => false

/-- Predicate deciding whether `filter_dict` keeps an entry, mirroring its
`if value is None / elif sentinel and not required / elif empty` chain. -/
def keepEntry (required : List String) (kv : String × Value) : Bool :=
  if kv.2 = Value.none then false
  else if !(decide (kv.1 ∈ required)) && kv.2.isSentinel then false
  else if kv.2.isEmptySeq then false
  else true

/-- Embedding of `filter_dict(d, required)`: keep the entries of `d` except
those whose value is `None`, those whose key is not required and whose value
is a sentinel string, and those whose value is an empty string or empty
collection.  A Python dict is carried as an association list. -/
def filter_dict (d : List (String × Value)) (required : List String) :
    List (String × Value) :=
  d.filter (keepEntry required)

/-- Python `d.get(k)` on an association-list dict: value of the first entry
with key `k`, if any. -/
def dictGet (d : List (String × Value)) (k : String) : Option Value :=
  (d.find? (fun kv => kv.1 == k)).map (·.2)

/-- Python `d[k] = v` on an association-list dict: the mapping sending `k`
to `v` and every other key to its previous value. -/
def dictSet (d : List (String × Value)) (k : String) (v : Value) :
    List (String × Value) :=
  d.filter (fun kv => kv.1 != k) ++ [(k, v)]

/-- Element list of a collection value (the iteration Python's `set(...)`
performs); non-collections contribute no elements. -/
def Value.strings : Value → List String
  | .list xs => xs
  | .tuple xs => xs
  | .set xs => xs
  | _ => []

/-- Python `list(set(xs))` followed by `.sort()`: the duplicate-free,
lexicographically sorted sequence of `xs`. -/
def dedupSortClassifiers (xs : List String) : List String :=
  xs.dedup.insertionSort (· ≤ ·)

namespace PyPIFetcher

/-- Allow-list of keys `PyPIFetcher.version` restricts its result to (the
`keys` set in the source). -/
def versionKeys : List String :=
  ["name", "version", "summary", "description", "author",
   "author_email", "maintainer", "maintainer_email", "license",
   "requires_python", "requires_external", "bugtrack_url",
   "home_page", "project_url", "keywords", "download_url"]

/-- First stages of `PyPIFetcher.version` on the raw `release_data` mapping:
`filter_dict` with required `{name, version}`, then
`data["classifiers"] = list(set(data.get("classifiers", [])))` and
`data["classifiers"].sort()`. -/
def versionPreKeyFilter (raw : List (String × Value)) :
    List (String × Value) :=
  let data := filter_dict raw ["name", "version"]
  let cls := dedupSortClassifiers
    (Value.strings ((dictGet data "classifiers").getD (Value.list [])))
  dictSet data "classifiers" (Value.list cls)

/-- Embedding of `PyPIFetcher.version` applied to the raw mapping returned
by the remote `release_data` call: normalization followed by the final
restriction `{key: value for key, value in data.items() if key in keys}`. -/
def version (raw : List (String × Value)) : List (String × Value) :=
  (versionPreKeyFilter raw).filter (fun kv => decide (kv.1 ∈ versionKeys))

end PyPIFetcher

/-- Normalized release record as consumed by `store`: one field per key it
reads, `Option` marking a key's absence from the mapping. -/
structure Release where
  name : Option String
  version : Option String
  summary : Option String
  description : Option String
  author : Option String
  author_email : Option String
  maintainer : Option String
  maintainer_email : Option String
  license : Option String
  requires_python : Option String
  requires_external : Option (List String)
  bugtrack_url : Option String
  home_page : Option String
  project_url : Option (List String)
  keywords : Option String
  download_url : Option String
deriving DecidableEq, Repr

/-- Release record with every key absent. -/
def emptyRelease : Release :=
  { name := none, version := none, summary := none, description := none,
    author := none, author_email := none, maintainer := none,
    maintainer_email := none, license := none, requires_python := none,
    requires_external := none, bugtrack_url := none, home_page := none,
    project_url := none, keywords := none, download_url := none }

/-- Row of the Version table: identity `(project, version)` (the project is
carried by name, its identity) plus the mutable attributes `store` assigns. -/
structure VersionRow where
  project : String
  version : String
  summary : String
  description : String
  author : String
  author_email : String
  maintainer : String
  maintainer_email : String
  license : String
  requires_python : String
  requires_external : List String
  keywords : List String
  uris : List (String × String)
  download_uri : String
deriving DecidableEq, Repr

/-- Relational state the synchronizer writes: the Project rows (each row is
its unique attribute, the name) and the Version rows. -/
structure DB where
  projects : List String
  versions : List VersionRow
deriving DecidableEq, Repr

/-- Database with no rows. -/
def DB.empty : DB := { projects := [], versions := [] }

/-- Embedding of `store_project(name)`: query the Project rows by name; on
`NoResultFound` create the row (add + flush); a multi-row result raises
(`.one()` propagates `MultipleResultsFound`), modeled as `none`. -/
def store_project (db : DB) (name : String) : Option DB :=
  match db.projects.filter (fun m => m == name) with
  | [] => some { db with projects := db.projects ++ [name] }
  | [_] => some db
  | _ => none

/-- Splitting of a character list at every character satisfying `p`
(Python `str.split(sep)` semantics: n separator occurrences yield n + 1
pieces, empty pieces included). -/
def splitList (p : Char → Bool) : List Char → List (List Char)
  | [] => [[]]
  | c :: cs =>
    if p c then [] :: splitList p cs
    else
      match splitList p cs with
      | [] => [[c]]
      | piece :: r => (c :: piece) :: r

/-- Python `s.split(",")`. -/
def pySplitComma (s : String) : List String :=
  (splitList (fun c => c == ',') s.data).map List.asString

/-- Python `s.strip()`: remove leading and trailing whitespace. -/
def pyStrip (s : String) : String :=
  ((s.data.dropWhile Char.isWhitespace).reverse.dropWhile
    Char.isWhitespace).reverse.asString

/-- Embedding of the keywords assignment in `store`: split on "," when the
string contains a comma, otherwise on whitespace (`split(None)`), strip each
token and drop empty ones.  (Python's whitespace split pre-discards empty
tokens; the trailing emptiness filter makes the two readings agree.) -/
def splitKeywords (s : String) : List String :=
  let parts :=
    if s.data.any (fun c => c == ',') then pySplitComma s
    else (splitList Char.isWhitespace s.data).map List.asString
  (parts.map pyStrip).filter (fun x => x != "")

/-- Embedding of `label, url = [x.strip() for x in purl.split(",")]`: the
two-element unpacking succeeds only when the split yields exactly two
pieces, i.e. `purl` contains exactly one comma; otherwise a `ValueError`
propagates, modeled as `none`. -/
def splitPair (purl : String) : Option (String × String) :=
  match (pySplitComma purl).map pyStrip with
  | [label, url] => some (label, url)
  | _ => none

/-- Python dict assignment `d[k] = v` on a string-valued association-list
dict: overwrite the value when the key is present, append otherwise. -/
def dictUpsert (d : List (String × String)) (k v : String) :
    List (String × String) :=
  if d.any (fun kv => kv.1 == k) then
    d.map (fun kv => if kv.1 == k then (k, v) else kv)
  else d ++ [(k, v)]

/-- The first two `uris` entries of `store`: `uris["Bugtracker"]` when
`release.get("bugtrack_url")` is truthy (present and non-empty) and
`uris["Home page"]` when `release.get("home_page")` is truthy.  The two
literal keys are distinct, so the two guarded dict assignments into the
empty dict form this list. -/
def baseUris (rel : Release) : List (String × String) :=
  (match rel.bugtrack_url with
   | some s => if s != "" then [("Bugtracker", s)] else []
   | none => []) ++
  (match rel.home_page with
   | some s => if s != "" then [("Home page", s)] else []
   | none => [])

/-- The `for purl in release["project_url"]` loop of `store`: split each
entry, assign `uris[label] = url`; a failing unpack propagates. -/
def addPurls (acc : List (String × String)) :
    List String → Option (List (String × String))
  | [] => some acc
  | purl :: rest =>
    match splitPair purl with
    | none => none
    | some kv => addPurls (dictUpsert acc kv.1 kv.2) rest

/-- The whole `uris` construction of `store`.  The `if
release.get("project_url"):` guard is absorbed: looping over an absent or
empty list adds nothing. -/
def mkUris (rel : Release) : Option (List (String × String)) :=
  addPurls (baseUris rel) (rel.project_url.getD [])

/-- Attribute assignment block of `store`: every mutable attribute of the
Version row, each `release.get(key, default)`.  The license line mirrors
the source exactly: `version.license = release.get("maintainer", "")`. -/
def mkRow (n v : String) (rel : Release) (uris : List (String × String)) :
    VersionRow :=
  { project := n, version := v,
    summary := rel.summary.getD "",
    description := rel.description.getD "",
    author := rel.author.getD "",
    author_email := rel.author_email.getD "",
    maintainer := rel.maintainer.getD "",
    maintainer_email := rel.maintainer_email.getD "",
    license := rel.maintainer.getD "",
    requires_python := rel.requires_python.getD "",
    requires_external := rel.requires_external.getD [],
    keywords := splitKeywords (rel.keywords.getD ""),
    uris := uris,
    download_uri := rel.download_url.getD "" }

/-- Embedding of `store(release)`: find-or-create the Project by
`release["name"]`, find-or-create the Version by `(project,
release["version"])`, then overwrite all mutable attributes from the
record.  `none` models a propagating exception: `KeyError` on a missing
required key, `MultipleResultsFound` from `.one()`, or `ValueError` from
the uris unpacking (on failure the open session is discarded, as the
surrounding run aborts before any commit). -/
def store (db : DB) (rel : Release) : Option (DB × VersionRow) :=
  match rel.name with
  | none => none
  | some n =>
    match store_project db n with
    | none => none
    | some db1 =>
      match rel.version with
      | none => none
      | some v =>
        match mkUris rel with
        | none => none
        | some uris =>
          let row := mkRow n v rel uris
          match db1.versions.filter
              (fun r => r.project == n && r.version == v) with
          | [] => some ({ db1 with versions := db1.versions ++ [row] }, row)
          | [_] =>
            let vs := db1.versions.map (fun r =>
              if r.project == n && r.version == v then row else r)
            some ({ db1 with versions := vs }, row)
          | _ => none

/-- Rejoin comma-separated pieces (inverse of the comma split on its
non-first pieces). -/
def joinCommas : List String → String
  | [] => ""
  | [piece] => piece
  | piece :: rest => piece ++ "," ++ joinCommas rest

/-- Modelled from the spec: the spec's description of one `project_url`
entry, "each pair split on the first comma and both sides trimmed" — the
label is the text before the first comma, the URL everything after it;
absent when the entry has no comma. -/
def specSplitFirstComma (s : String) : Option (String × String) :=
  match pySplitComma s with
  | label :: r :: rs => some (pyStrip label, pyStrip (joinCommas (r :: rs)))
  | _ => none

/-- Modelled from the spec: fold the first-comma-split pairs into the
mapping, last-seen label winning. -/
def specAddPurls (acc : List (String × String)) :
    List String → Option (List (String × String))
  | [] => some acc
  | purl :: rest =>
    match specSplitFirstComma purl with
    | none => none
    | some kv => specAddPurls (dictUpsert acc kv.1 kv.2) rest

/-- Modelled from the spec: the merged `uris` mapping — bug-tracker URL,
home-page URL, then the repeated field's label/URL pairs split on the first
comma with both sides trimmed, last-seen label winning. -/
def specUris (rel : Release) : Option (List (String × String)) :=
  specAddPurls (baseUris rel) (rel.project_url.getD [])

/-- Exceptions escaping one unit of work of the full-catalog run: a
`TransportError` raised by the fetcher, or an error raised inside
`store`/`store_project` (`KeyError`, `ValueError`, `MultipleResultsFound`). -/
inductive SyncErr where
  | transportError
  | storeError
deriving DecidableEq, Repr

/-- Fetcher interface as `syncer` consumes it in a full-catalog run:
`packages()` and `project(name)`, the latter failing with `TransportError`
(payload irrelevant, carried as `Unit`). -/
structure Fetcher where
  packages : List String
  project : String → Except Unit (List Release)

/-- Session plus last committed database state: `db.session.commit()`
persists the working state. -/
structure SyncState where
  session : DB
  committed : DB
deriving DecidableEq, Repr

/-- Embedding of `db.session.commit()`. -/
def SyncState.commit (st : SyncState) : SyncState :=
  { st with committed := st.session }

/-- The `for release in releases: store(release)` inner loop of `syncer`:
thread the session through the stores; on a raised error, surface the
session as it stood before the failing store. -/
def storeAll (db : DB) : List Release → Except DB DB
  | [] => .ok db
  | r :: rs =>
    match store db r with
    | none => .error db
    | some (db1, _) => storeAll db1 rs

/-- The `for releases in pool.imap(fetcher.project, projects)` loop of
`syncer`.  `GreenPool.imap` yields results in input order and the body runs
in the single consuming task, so the loop is consumed sequentially; an
exception raised by a fetch or a store propagates out of the loop at the
package where it occurs, with everything up to the previous package already
committed.  Later packages are never consumed. -/
def syncLoop (f : Fetcher) : List String → SyncState → SyncState × Option SyncErr
  | [], st => (st, none)
  | pkg :: rest, st =>
    match f.project pkg with
    | .error _ => (st, some .transportError)
    | .ok rels =>
      match storeAll st.session rels with
      | .error db1 => ({ st with session := db1 }, some .storeError)
      | .ok db1 => syncLoop f rest (SyncState.commit { st with session := db1 })

/-- The `for project in projects: store_project(project)` pass of `syncer`
ensuring every enumerated package has a Project row. -/
def storeProjects (db : DB) : List String → Option DB
  | [] => some db
  | p :: ps =>
    match store_project db p with
    | none => none
    | some db1 => storeProjects db1 ps

/-- Embedding of `syncer(project=None, version=None, fetcher=f)`, the
full-catalog run: enumerate packages, fetch-and-store each with a commit
per package, then force-create missing Project rows and commit.  The second
component is the exception propagating out of `syncer`, if any. -/
def syncer (f : Fetcher) (st : SyncState) : SyncState × Option SyncErr :=
  match syncLoop f f.packages st with
  | (st1, some e) => (st1, some e)
  | (st1, none) =>
    match storeProjects st1.session f.packages with
    | none => (st1, some .storeError)
    | some db1 => (SyncState.commit { st1 with session := db1 }, none)

/-- Release "1" of package "A" (concrete run fixture). -/
def relA : Release := { emptyRelease with name := some "A", version := some "1" }

/-- Release "1" of package "C" (concrete run fixture). -/
def relC : Release := { emptyRelease with name := some "C", version := some "1" }

/-- The Version row `store` writes for `relA`. -/
def rowA : VersionRow :=
  { project := "A", version := "1", summary := "", description := "",
    author := "", author_email := "", maintainer := "",
    maintainer_email := "", license := "", requires_python := "",
    requires_external := [], keywords := [], uris := [], download_uri := "" }

/-- Fetcher enumerating packages A, B, C whose fetch of B raises
`TransportError`. -/
def fetcherBFails : Fetcher :=
  { packages := ["A", "B", "C"],
    project := fun p =>
      if p = "B" then .error ()
      else if p = "A" then .ok [relA] else .ok [relC] }

/-- Release record lacking the required key "name". -/
def relNoName : Release := { emptyRelease with version := some "1" }

/-- Release "1" of package "Q" (concrete run fixture). -/
def relQ : Release := { emptyRelease with name := some "Q", version := some "1" }

/-- Fetcher enumerating packages P, Q where P's only release record lacks
its "name" key. -/
def fetcherMissingName : Fetcher :=
  { packages := ["P", "Q"],
    project := fun p => if p = "P" then .ok [relNoName] else .ok [relQ] }

/-- Release carrying a home page, a bug tracker and one "label, url" pair
(the spec's URI-assembly example). -/
def relDocs : Release :=
  { emptyRelease with
    name := some "x"
    version := some "1"
    bugtrack_url := some "http://bugs.test"
    home_page := some "http://x.test"
    project_url := some ["Docs, http://docs.test"] }

/-- The Version row `store` writes for `relDocs`. -/
def rowDocs : VersionRow :=
  { project := "x", version := "1", summary := "", description := "",
    author := "", author_email := "", maintainer := "",
    maintainer_email := "", license := "", requires_python := "",
    requires_external := [], keywords := [],
    uris := [("Bugtracker", "http://bugs.test"),
             ("Home page", "http://x.test"),
             ("Docs", "http://docs.test")],
    download_uri := "" }

/-- Database after storing `relDocs` into the empty database. -/
def dbDocs : DB := { projects := ["x"], versions := [rowDocs] }

/-- Release whose only `project_url` entry has nothing after its comma. -/
def relEmptyUrl : Release :=
  { emptyRelease with
    name := some "x"
    version := some "1"
    project_url := some ["Docs,"] }

/-- The Version row `store` writes for `relEmptyUrl`: its uris mapping
carries an empty-string value. -/
def rowEmptyUrl : VersionRow :=
  { project := "x", version := "1", summary := "", description := "",
    author := "", author_email := "", maintainer := "",
    maintainer_email := "", license := "", requires_python := "",
    requires_external := [], keywords := [], uris := [("Docs", "")],
    download_uri := "" }

/-- Database after storing `relEmptyUrl` into the empty database. -/
def dbEmptyUrl : DB := { projects := ["x"], versions := [rowEmptyUrl] }

/-- Release whose only `project_url` entry has no comma. -/
def relNoComma : Release :=
  { emptyRelease with
    name := some "x"
    version := some "1"
    project_url := some ["nocomma"] }

/-- Release whose only `project_url` entry has two commas. -/
def relTwoCommas : Release :=
  { emptyRelease with
    name := some "x"
    version := some "1"
    project_url := some ["a, b, c"] }

/-- Release whose "license" key says MIT while its "maintainer" key says
Bob. -/
def relLicense : Release :=
  { emptyRelease with
    name := some "foo"
    version := some "1.0"
    license := some "MIT"
    maintainer := some "Bob" }

/-- Release record of project "pkg" version "1.0" with a summary
(idempotence fixture). -/
def relPkg : Release :=
  { emptyRelease with
    name := some "pkg"
    version := some "1.0"
    summary := some "s" }

/-- The Version row `store` writes for `relPkg`. -/
def rowPkg : VersionRow :=
  { project := "pkg", version := "1.0", summary := "s", description := "",
    author := "", author_email := "", maintainer := "",
    maintainer_email := "", license := "", requires_python := "",
    requires_external := [], keywords := [], uris := [], download_uri := "" }

/-- Entries surviving `filter_dict` never have a `None`, empty-string or
empty-collection value, and sentinel values survive only on required keys. -/
theorem mem_filter_dict {d : List (String × Value)} {required : List String}
    {kv : String × Value} (h : kv ∈ filter_dict d required) :
    kv ∈ d ∧ kv.2 ≠ Value.none ∧ (kv.2.isSentinel → kv.1 ∈ required) ∧
      kv.2.isEmptySeq = false := by
  rw [filter_dict, List.mem_filter] at h
  obtain ⟨hmem, hcond⟩ := h
  rw [keepEntry] at hcond
  by_cases h1 : kv.2 = Value.none <;>
    by_cases h2 : kv.1 ∈ required <;>
    by_cases h3 : kv.2.isSentinel <;>
    by_cases h4 : kv.2.isEmptySeq <;>
    simp_all

/-- Entries of `d` whose value is neither `None`, nor empty, nor an
unprotected sentinel are kept by `filter_dict`. -/
theorem mem_filter_dict_of_kept {d : List (String × Value)}
    {required : List String} {kv : String × Value} (hmem : kv ∈ d)
    (h1 : kv.2 ≠ Value.none) (h2 : kv.2.isSentinel → kv.1 ∈ required)
    (h3 : kv.2.isEmptySeq = false) : kv ∈ filter_dict d required := by
  rw [filter_dict, List.mem_filter]
  refine ⟨hmem, ?_⟩
  rw [keepEntry]
  by_cases hs : kv.2.isSentinel <;> simp_all

/-- Looking up the key just stored by `dictSet` yields the stored value. -/
theorem dictGet_dictSet (d : List (String × Value)) (k : String) (v : Value) :
    dictGet (dictSet d k v) k = some v := by
  rw [dictGet, dictSet, List.find?_append]
  have hnone : (d.filter (fun kv => kv.1 != k)).find?
      (fun kv => kv.1 == k) = none := by
    rw [List.find?_eq_none]
    intro kv hkv
    have := (List.mem_filter.mp hkv).2
    simpa using this
  simp [hnone]

/-- C3 (counterexample): contrary to the claim, the normalized output of
`PyPIFetcher.version` contains no classifiers field at all: "classifiers"
is missing from the final allow-list of keys, so the key is removed even
though a raw record carried classifier strings. -/
theorem version_classifiers_dropped_cex :
    dictGet [("name", Value.str "foo"), ("version", Value.str "1.0"),
             ("classifiers", Value.list ["B", "A", "A"])] "classifiers" =
      some (Value.list ["B", "A", "A"]) ∧
    dictGet (PyPIFetcher.version
      [("name", Value.str "foo"), ("version", Value.str "1.0"),
       ("classifiers", Value.list ["B", "A", "A"])]) "classifiers" = none := by
  decide

/-- C3 (amended): `PyPIFetcher.version` computes a duplicate-free,
lexicographically sorted classifiers sequence — the intermediate mapping
(before the final key allow-list) maps "classifiers" to a sorted,
duplicate-free list with exactly the classifier strings the stage read —
but the final allow-list omits "classifiers", so the normalized output
contains no classifiers field. -/
theorem version_classifiers_sorted_then_dropped
    (raw : List (String × Value)) :
    (∃ ys : List String,
      dictGet (PyPIFetcher.versionPreKeyFilter raw) "classifiers" =
        some (Value.list ys) ∧
      ys.Sorted (· ≤ ·) ∧ ys.Nodup ∧
      (∀ s : String, s ∈ ys ↔ s ∈ Value.strings
        ((dictGet (filter_dict raw ["name", "version"]) "classifiers").getD
          (Value.list [])))) ∧
    ∀ kv ∈ PyPIFetcher.version raw, kv.1 ≠ "classifiers" := by
  constructor
  · refine ⟨dedupSortClassifiers
      (Value.strings ((dictGet (filter_dict raw ["name", "version"])
        "classifiers").getD (Value.list []))), ?_, ?_, ?_, ?_⟩
    · rw [PyPIFetcher.versionPreKeyFilter]
      exact dictGet_dictSet _ _ _
    · exact List.sorted_insertionSort _ _
    · exact ((List.perm_insertionSort _ _).nodup_iff).mpr (List.nodup_dedup _)
    · intro s
      rw [dedupSortClassifiers, List.mem_insertionSort, List.mem_dedup]
  · intro kv hkv
    have h := (List.mem_filter.mp hkv).2
    intro hk
    rw [hk] at h
    exact absurd (by simpa using h) (by decide)

/-- C3 witness: the amended theorem at a concrete raw record, showing the
sorted duplicate-free intermediate value and the absence of the key in the
final output. -/
theorem version_classifiers_sorted_then_dropped_witness :
    ("name", Value.str "foo") ∉ ([] : List (String × Value)) ∧
    ∀ kv ∈ PyPIFetcher.version
      [("name", Value.str "foo"), ("version", Value.str "1.0"),
       ("classifiers", Value.list ["B", "A", "A"])], kv.1 ≠ "classifiers" :=
  ⟨by decide, (version_classifiers_sorted_then_dropped
      [("name", Value.str "foo"), ("version", Value.str "1.0"),
       ("classifiers", Value.list ["B", "A", "A"])]).2⟩

/-- C5 (counterexample): contrary to the claim, `filter_dict` does not keep a
key whose value is the empty string — `basestring` is part of its emptiness
`isinstance` test — so an entry with value `""` is dropped. -/
theorem filter_dict_drops_empty_string_cex :
    filter_dict [("keywords", Value.str "")] [] = [] := by decide

/-- C5 (amended): `filter_dict` drops every key whose value is an empty
string or an empty list/tuple/set: emptiness of a string-typed value causes
removal just like emptiness of a collection-typed value, and the removal
applies even to required keys. -/
theorem filter_dict_drops_empty_values {d : List (String × Value)}
    {required : List String} {k : String} {v : Value}
    (hv : v.isEmptySeq = true) : (k, v) ∉ filter_dict d required := by
  intro hmem
  have h := mem_filter_dict hmem
  simp only [h.2.2.2] at hv
  exact Bool.false_ne_true hv

/-- C5 witness: the amended theorem at a concrete empty-string entry. -/
theorem filter_dict_drops_empty_values_witness :
    ("keywords", Value.str "") ∉ filter_dict [("keywords", Value.str "")] [] :=
  filter_dict_drops_empty_values (by decide)

/-- C6 (counterexample): contrary to the claim, a key in the required set is
not retained regardless of value: a required key whose value is `None` is
dropped by the first branch of `filter_dict`. -/
theorem filter_dict_required_none_cex :
    filter_dict [("name", Value.none)] ["name"] = [] := by decide

/-- C6 (amended): `filter_dict` drops every key whose value is `None`
(required or not), drops every non-required key whose value is one of the
placeholder sentinel strings "None"/"UNKNOWN", and required keys are exempt
only from the sentinel stripping: a required key with a non-`None`,
non-empty value is retained even when it is a sentinel.  The claim's
example holds: `{"name": "foo", "version": "1.0", "author": "UNKNOWN",
"license": None}` with required `{name, version}` normalizes to
`{"name": "foo", "version": "1.0"}`. -/
theorem filter_dict_sentinel_stripping :
    (∀ (d : List (String × Value)) (required : List String) (k : String),
      (k, Value.none) ∉ filter_dict d required) ∧
    (∀ (d : List (String × Value)) (required : List String) (k : String)
      (v : Value), k ∉ required → v.isSentinel = true →
      (k, v) ∉ filter_dict d required) ∧
    (∀ (d : List (String × Value)) (required : List String) (k : String)
      (v : Value), (k, v) ∈ d → k ∈ required → v ≠ Value.none →
      v.isEmptySeq = false → (k, v) ∈ filter_dict d required) ∧
    filter_dict
      [("name", Value.str "foo"), ("version", Value.str "1.0"),
       ("author", Value.str "UNKNOWN"), ("license", Value.none)]
      ["name", "version"] =
      [("name", Value.str "foo"), ("version", Value.str "1.0")] := by
  refine ⟨?_, ?_, ?_, by decide⟩
  · intro d required k hmem
    exact (mem_filter_dict hmem).2.1 rfl
  · intro d required k v hk hv hmem
    exact hk ((mem_filter_dict hmem).2.2.1 hv)
  · intro d required k v hmem hreq hnone hemp
    exact mem_filter_dict_of_kept hmem hnone (fun _ => hreq) hemp

/-- C6 witness: a required key keeps its sentinel value "UNKNOWN" (the
third conjunct at a concrete input). -/
theorem filter_dict_sentinel_stripping_witness :
    ("name", Value.str "UNKNOWN") ∈
      filter_dict [("name", Value.str "UNKNOWN")] ["name"] :=
  filter_dict_sentinel_stripping.2.2.1 _ _ _ _ (by decide) (by decide)
    (by decide) (by decide)

/-- After a successful `store_project`, exactly one Project row carries the
name, and the Version rows are untouched. -/
theorem store_project_some {db db' : DB} {n : String}
    (h : store_project db n = some db') :
    db'.projects.filter (fun m => m == n) = [n] ∧
      db'.versions = db.versions := by
  unfold store_project at h
  cases hf : db.projects.filter (fun m => m == n) with
  | nil =>
    rw [hf] at h
    simp only [Option.some.injEq] at h
    subst h
    constructor
    · show (db.projects ++ [n]).filter (fun m => m == n) = [n]
      rw [List.filter_append, hf]
      simp
    · rfl
  | cons x xs =>
    cases xs with
    | nil =>
      rw [hf] at h
      simp only [Option.some.injEq] at h
      subst h
      have hx : x ∈ db.projects.filter (fun m => m == n) := by
        rw [hf]; exact List.mem_singleton_self x
      have hxn : x = n := by
        have := (List.mem_filter.mp hx).2
        simpa using this
      subst hxn
      exact ⟨hf, rfl⟩
    | cons y ys =>
      rw [hf] at h
      simp at h

/-- A `store_project` against a state already holding exactly one row with
the name finds it and changes nothing. -/
theorem store_project_of_found {db : DB} {n : String}
    (h : db.projects.filter (fun m => m == n) = [n]) :
    store_project db n = some db := by
  unfold store_project
  rw [h]

/-- Filtering after replacing every matching element by `row` (itself
matching) rewrites each filtered element to `row`. -/
theorem filter_map_replace {α : Type} (p : α → Bool) (row : α)
    (hrow : p row = true) :
    ∀ l : List α,
      (l.map (fun r => if p r then row else r)).filter p =
        (l.filter p).map (fun _ => row)
  | [] => rfl
  | a :: l => by
    by_cases pa : p a <;>
      simp [pa, hrow, filter_map_replace p row hrow l]

/-- Replacing every `p`-element of `l` by `row` is the identity when `row`
is the only `p`-element `l` holds. -/
theorem map_replace_id {α : Type} (p : α → Bool) (row : α) (l : List α)
    (h : ∀ r ∈ l, p r = true → r = row) :
    l.map (fun r => if p r then row else r) = l := by
  induction l with
  | nil => rfl
  | cons a t ih =>
    have ha : (if p a then row else a) = a := by
      by_cases pa : p a
      · rw [if_pos pa, (h a (List.mem_cons_self a t) pa)]
      · rw [if_neg pa]
    simp only [List.map_cons, ha]
    rw [ih (fun r hr hp => h r (List.mem_cons_of_mem a hr) hp)]

/-- A `store` against a state that already holds the stored rows (one
Project row with the name, one Version row equal to the one the record
produces) finds everything, rewrites the row to itself, and changes
nothing. -/
theorem store_again {db1 : DB} {rel : Release} {n v : String}
    {uris : List (String × String)}
    (hn : rel.name = some n) (hv : rel.version = some v)
    (hu : mkUris rel = some uris)
    (hproj : db1.projects.filter (fun m => m == n) = [n])
    (hflt : db1.versions.filter
      (fun r => r.project == n && r.version == v) = [mkRow n v rel uris]) :
    store db1 rel = some (db1, mkRow n v rel uris) := by
  have hsp : store_project db1 n = some db1 := store_project_of_found hproj
  have hmap : db1.versions.map
      (fun r => if r.project == n && r.version == v
        then mkRow n v rel uris else r) = db1.versions := by
    apply map_replace_id
    intro r hr hp
    have : r ∈ db1.versions.filter
        (fun r => r.project == n && r.version == v) :=
      List.mem_filter.mpr ⟨hr, hp⟩
    rw [hflt] at this
    simpa using this
  simp only [store, hn, hsp, hv, hu, hflt, hmap]

/-- C2: the single-version store is idempotent.  A second `store` with the
identical record returns the same database and the same row, the database
holds exactly one Version row for the record's (project, version) pair, and
a successful `store_project` leaves exactly one Project row with the name
and is itself a no-op when repeated. -/
theorem store_idempotent :
    (∀ (db : DB) (rel : Release) (db1 : DB) (r1 : VersionRow),
      store db rel = some (db1, r1) →
      store db1 rel = some (db1, r1) ∧
        db1.versions.filter
          (fun r => r.project == r1.project && r.version == r1.version) =
          [r1]) ∧
    (∀ (db : DB) (n : String) (db' : DB), store_project db n = some db' →
      (db'.projects.filter (fun m => m == n)).length = 1 ∧
        store_project db' n = some db') := by
  constructor
  · intro db rel db1 r1 h
    rw [store] at h
    cases hn : rel.name with
    | none => simp only [hn] at h; exact Option.noConfusion h
    | some n =>
    simp only [hn] at h
    cases hsp : store_project db n with
    | none => simp only [hsp] at h; exact Option.noConfusion h
    | some dbp =>
    simp only [hsp] at h
    cases hv : rel.version with
    | none => simp only [hv] at h; exact Option.noConfusion h
    | some v =>
    simp only [hv] at h
    cases hu : mkUris rel with
    | none => simp only [hu] at h; exact Option.noConfusion h
    | some uris =>
    simp only [hu] at h
    have hkey : ((mkRow n v rel uris).project == n &&
        (mkRow n v rel uris).version == v) = true := by
      simp [mkRow]
    cases hflt : dbp.versions.filter
        (fun r => r.project == n && r.version == v) with
    | nil =>
      simp only [hflt] at h
      simp only [Option.some.injEq, Prod.mk.injEq] at h
      obtain ⟨hdb1, hr1⟩ := h
      subst hdb1; subst hr1
      have hflt1 : (dbp.versions ++ [mkRow n v rel uris]).filter
          (fun r => r.project == n && r.version == v) =
          [mkRow n v rel uris] := by
        rw [List.filter_append, hflt]
        simp [hkey]
      constructor
      · exact store_again hn hv hu (store_project_some hsp).1 hflt1
      · simpa [mkRow] using hflt1
    | cons x xs =>
      cases xs with
      | nil =>
        simp only [hflt] at h
        simp only [Option.some.injEq, Prod.mk.injEq] at h
        obtain ⟨hdb1, hr1⟩ := h
        subst hdb1; subst hr1
        have hflt1 : (dbp.versions.map (fun r =>
            if r.project == n && r.version == v
            then mkRow n v rel uris else r)).filter
            (fun r => r.project == n && r.version == v) =
            [mkRow n v rel uris] := by
          rw [filter_map_replace
              (fun r => r.project == n && r.version == v)
              (mkRow n v rel uris) hkey dbp.versions, hflt]
          rfl
        constructor
        · exact store_again hn hv hu (store_project_some hsp).1 hflt1
        · simpa [mkRow] using hflt1
      | cons y ys => simp only [hflt] at h; exact Option.noConfusion h
  · intro db n db' h
    refine ⟨?_, store_project_of_found (store_project_some h).1⟩
    rw [(store_project_some h).1]
    rfl

/-- C2 witness: the idempotence theorem at a concrete record and a concrete
`store_project` call. -/
theorem store_idempotent_witness :
    (store { projects := ["pkg"], versions := [rowPkg] } relPkg =
        some ({ projects := ["pkg"], versions := [rowPkg] }, rowPkg) ∧
      (({ projects := ["pkg"], versions := [rowPkg] } : DB)).versions.filter
        (fun r => r.project == rowPkg.project &&
          r.version == rowPkg.version) = [rowPkg]) ∧
    ((({ projects := ["pkg"], versions := [] } : DB)).projects.filter
        (fun m => m == "pkg")).length = 1 ∧
      store_project { projects := ["pkg"], versions := [] } "pkg" =
        some { projects := ["pkg"], versions := [] } :=
  ⟨store_idempotent.1 DB.empty relPkg
      { projects := ["pkg"], versions := [rowPkg] } rowPkg (by decide),
    store_idempotent.2 DB.empty "pkg"
      { projects := ["pkg"], versions := [] } (by decide)⟩

/-- Inversion of a successful `store`: the required keys were present, the
uris construction succeeded, and the returned row is the one the record
determines. -/
theorem store_some_mkUris {db : DB} {rel : Release} {db1 : DB}
    {r1 : VersionRow} (h : store db rel = some (db1, r1)) :
    ∃ n v uris, rel.name = some n ∧ rel.version = some v ∧
      mkUris rel = some uris ∧ r1 = mkRow n v rel uris := by
  rw [store] at h
  cases hn : rel.name with
  | none => simp only [hn] at h; exact Option.noConfusion h
  | some n =>
  simp only [hn] at h
  cases hsp : store_project db n with
  | none => simp only [hsp] at h; exact Option.noConfusion h
  | some dbp =>
  simp only [hsp] at h
  cases hv : rel.version with
  | none => simp only [hv] at h; exact Option.noConfusion h
  | some v =>
  simp only [hv] at h
  cases hu : mkUris rel with
  | none => simp only [hu] at h; exact Option.noConfusion h
  | some uris =>
  simp only [hu] at h
  refine ⟨n, v, uris, rfl, rfl, rfl, ?_⟩
  cases hflt : dbp.versions.filter
      (fun r => r.project == n && r.version == v) with
  | nil =>
    simp only [hflt, Option.some.injEq, Prod.mk.injEq] at h
    exact h.2.symm
  | cons x xs =>
    cases xs with
    | nil =>
      simp only [hflt, Option.some.injEq, Prod.mk.injEq] at h
      exact h.2.symm
    | cons y ys => simp only [hflt] at h; exact Option.noConfusion h

/-- A successful two-element unpack exposes the split pieces: the stripped
comma split of the entry is exactly the label and the URL. -/
theorem splitPair_parts {purl : String} {kv : String × String}
    (h : splitPair purl = some kv) :
    (pySplitComma purl).map pyStrip = [kv.1, kv.2] := by
  rw [splitPair] at h
  cases hm : pySplitComma purl with
  | nil => simp only [hm, List.map_nil] at h; exact Option.noConfusion h
  | cons a t =>
    cases t with
    | nil => simp only [hm] at h; exact Option.noConfusion h
    | cons b t2 =>
      cases t2 with
      | nil =>
        simp only [hm, List.map_cons, List.map_nil,
          Option.some.injEq] at h
        simp [← h]
      | cons c t3 => simp only [hm] at h; exact Option.noConfusion h

/-- The code's all-comma split with two-element unpack refines the spec's
first-comma split: whenever the unpack succeeds, the spec's reading yields
the same pair. -/
theorem splitPair_spec {purl : String} {kv : String × String}
    (h : splitPair purl = some kv) : specSplitFirstComma purl = some kv := by
  rw [splitPair] at h
  rw [specSplitFirstComma]
  cases hm : pySplitComma purl with
  | nil => simp only [hm, List.map_nil] at h; exact Option.noConfusion h
  | cons a t =>
    cases t with
    | nil => simp only [hm] at h; exact Option.noConfusion h
    | cons b t2 =>
      cases t2 with
      | nil =>
        simp only [hm, List.map_cons, List.map_nil,
          Option.some.injEq] at h
        exact congrArg some h
      | cons c t3 => simp only [hm] at h; exact Option.noConfusion h

/-- When the code's purl loop succeeds, the spec's loop produces the same
mapping. -/
theorem addPurls_spec {purls : List String} :
    ∀ {acc res : List (String × String)}, addPurls acc purls = some res →
      specAddPurls acc purls = some res := by
  induction purls with
  | nil => intro acc res h; exact h
  | cons p ps ih =>
    intro acc res h
    rw [addPurls] at h
    cases hsp : splitPair p with
    | none => simp only [hsp] at h; exact Option.noConfusion h
    | some kv =>
      simp only [hsp] at h
      rw [specAddPurls, splitPair_spec hsp]
      exact ih h

/-- Every entry consumed by a successful purl loop unpacked successfully. -/
theorem addPurls_some_splitPair {purls : List String} :
    ∀ {acc res : List (String × String)}, addPurls acc purls = some res →
      ∀ purl ∈ purls, ∃ kv, splitPair purl = some kv := by
  induction purls with
  | nil => intro acc res _ purl hp; exact absurd hp (List.not_mem_nil purl)
  | cons p ps ih =>
    intro acc res h purl hp
    rw [addPurls] at h
    cases hsp : splitPair p with
    | none => simp only [hsp] at h; exact Option.noConfusion h
    | some kv =>
      simp only [hsp] at h
      rcases List.mem_cons.mp hp with rfl | hp2
      · exact ⟨kv, hsp⟩
      · exact ih h purl hp2

/-- Membership in an upserted mapping: an entry was already present or is
the assigned pair. -/
theorem mem_dictUpsert {d : List (String × String)} {k v : String}
    {p : String × String} (h : p ∈ dictUpsert d k v) : p ∈ d ∨ p = (k, v) := by
  rw [dictUpsert] at h
  by_cases ha : d.any (fun kv => kv.1 == k)
  · rw [if_pos ha] at h
    obtain ⟨q, hq, hpq⟩ := List.mem_map.mp h
    by_cases hqk : (q.1 == k) = true
    · right; rw [← hpq, if_pos hqk]
    · left; rw [← hpq, if_neg hqk]; exact hq
  · rw [if_neg ha] at h
    rcases List.mem_append.mp h with h1 | h1
    · left; exact h1
    · right; simpa using h1

/-- Invariant of the purl loop: a property holding on the accumulator and
on every successfully unpacked pair holds on every entry of the result. -/
theorem addPurls_prop {P : String × String → Prop} {purls : List String} :
    ∀ {acc res : List (String × String)}, addPurls acc purls = some res →
      (∀ p ∈ acc, P p) →
      (∀ purl ∈ purls, ∀ kv, splitPair purl = some kv → P kv) →
      ∀ p ∈ res, P p := by
  induction purls with
  | nil =>
    intro acc res h hacc _ p hp
    rw [addPurls] at h
    exact hacc p ((Option.some.inj h) ▸ hp)
  | cons q qs ih =>
    intro acc res h hacc hstep p hp
    rw [addPurls] at h
    cases hsp : splitPair q with
    | none => simp only [hsp] at h; exact Option.noConfusion h
    | some kv =>
      simp only [hsp] at h
      refine ih h ?_ (fun purl h1 => hstep purl (List.mem_cons_of_mem q h1))
        p hp
      intro r hr
      rcases mem_dictUpsert hr with h2 | h2
      · exact hacc r h2
      · rw [h2]
        exact hstep q (List.mem_cons_self q qs) kv hsp

/-- The bug-tracker and home-page entries carry non-empty values: both are
guarded by Python truthiness. -/
theorem baseUris_values_nonempty {rel : Release} {p : String × String}
    (h : p ∈ baseUris rel) : p.2 ≠ "" := by
  rw [baseUris] at h
  rcases List.mem_append.mp h with h1 | h1
  · cases hb : rel.bugtrack_url with
    | none => rw [hb] at h1; exact absurd h1 (List.not_mem_nil p)
    | some s =>
      rw [hb] at h1
      by_cases hs : s = ""
      · simp [hs] at h1
      · simp only [show (s != "") = true by simpa using hs, if_pos] at h1
        rw [List.mem_singleton.mp h1]
        simpa using hs
  · cases hb : rel.home_page with
    | none => rw [hb] at h1; exact absurd h1 (List.not_mem_nil p)
    | some s =>
      rw [hb] at h1
      by_cases hs : s = ""
      · simp [hs] at h1
      · simp only [show (s != "") = true by simpa using hs, if_pos] at h1
        rw [List.mem_singleton.mp h1]
        simpa using hs

/-- C4 is a code bug: the source line `version.license =
release.get("maintainer", "")` assigns the maintainer's value to the
license attribute.  On a record whose "license" key is "MIT" and whose
"maintainer" key is "Bob", the stored Version's license is "Bob", not the
"MIT" the claim (and the spec's "direct assignment from its own key")
requires. -/
theorem store_license_takes_maintainer :
    relLicense.license = some "MIT" ∧
      (store DB.empty relLicense).map (fun p => p.2.license) = some "Bob" := by
  decide

/-- C7: on every record `store` accepts, the stored `uris` mapping is
exactly the spec's merged mapping: "Bugtracker" from a truthy
`bugtrack_url`, "Home page" from a truthy `home_page`, then one entry per
`project_url` pair split on its first comma with both sides trimmed, the
last-seen label winning. -/
theorem store_uris_matches_spec :
    ∀ (db : DB) (rel : Release) (db1 : DB) (r1 : VersionRow),
      store db rel = some (db1, r1) → specUris rel = some r1.uris := by
  intro db rel db1 r1 h
  obtain ⟨n, v, uris, hn, hv, hu, hr1⟩ := store_some_mkUris h
  rw [mkUris] at hu
  rw [specUris, addPurls_spec hu, hr1]
  rfl

/-- C7 witness: the spec's URI-assembly example, stored and compared. -/
theorem store_uris_matches_spec_witness :
    specUris relDocs = some rowDocs.uris :=
  store_uris_matches_spec DB.empty relDocs dbDocs rowDocs (by decide)

/-- C8 (counterexample): contrary to the claim, a stored `uris` mapping can
contain an empty-string value: a `project_url` entry with nothing after its
comma stores the entry `("Docs", "")`. -/
theorem store_uris_empty_value_cex :
    (store DB.empty relEmptyUrl).map (fun p => p.2.uris) =
      some [("Docs", "")] := by decide

/-- C8 (amended): empty values in a stored `uris` mapping can only come
from the `project_url` source: the bug-tracker and home-page entries are
truthiness-guarded and never empty, so an empty value is the trimmed
after-comma side of some `project_url` entry. -/
theorem store_uris_empty_only_project_url :
    ∀ (db : DB) (rel : Release) (db1 : DB) (r1 : VersionRow) (l u : String),
      store db rel = some (db1, r1) → (l, u) ∈ r1.uris → u = "" →
      (rel.project_url.getD []).any
        (fun purl => (pySplitComma purl).map pyStrip == [l, u]) = true := by
  intro db rel db1 r1 l u h hmem hu0
  obtain ⟨n, v, uris, hn, hv, humk, hr1⟩ := store_some_mkUris h
  rw [mkUris] at humk
  rw [hr1] at hmem
  refine addPurls_prop (P := fun p => p.2 = "" →
      (rel.project_url.getD []).any
        (fun purl => (pySplitComma purl).map pyStrip == [p.1, p.2]) = true)
    humk ?_ ?_ (l, u) hmem hu0
  · intro p hp hp2
    exact absurd hp2 (baseUris_values_nonempty hp)
  · intro purl hpurl kv hkv _
    refine List.any_eq_true.mpr ⟨purl, hpurl, ?_⟩
    simp [splitPair_parts hkv]

/-- C8 witness: the amended theorem at the empty-URL fixture — the empty
value traces back to its `project_url` entry. -/
theorem store_uris_empty_only_project_url_witness :
    (relEmptyUrl.project_url.getD []).any
      (fun purl => (pySplitComma purl).map pyStrip == ["Docs", ""]) = true :=
  store_uris_empty_only_project_url DB.empty relEmptyUrl dbEmptyUrl
    rowEmptyUrl "Docs" "" (by decide) (by decide) rfl

/-- Pieces produced by splitting a character list: one more than the number
of separator characters. -/
theorem splitList_length (p : Char → Bool) :
    ∀ l : List Char, (splitList p l).length = l.countP p + 1 := by
  intro l
  induction l with
  | nil => rfl
  | cons c cs ih =>
    by_cases hc : p c
    · simp [splitList, hc, List.countP_cons, ih]
    · cases hs : splitList p cs with
      | nil => rw [hs] at ih; simp at ih
      | cons piece r =>
        rw [hs] at ih
        simp only [splitList, hc]
        simp only [Bool.false_eq_true, if_false, hs, List.length_cons]
        rw [List.countP_cons]
        simp only [hc]
        simpa using ih

/-- The comma split yields one more piece than the string has commas. -/
theorem pySplitComma_length (s : String) :
    (pySplitComma s).length = s.data.count ',' + 1 := by
  rw [pySplitComma, List.length_map, splitList_length]
  rfl

/-- C10: `store` accepts a record only when every `project_url` entry
contains exactly one comma (the two-element unpacking of the comma split
constrains the split to two pieces), and it fails — the `ValueError`
propagates — on an entry with zero commas or with two commas. -/
theorem store_project_url_one_comma :
    (∀ (db : DB) (rel : Release) (db1 : DB) (r1 : VersionRow),
      store db rel = some (db1, r1) →
      ∀ purl ∈ rel.project_url.getD [], purl.data.count ',' = 1) ∧
    store DB.empty relNoComma = none ∧
    store DB.empty relTwoCommas = none := by
  refine ⟨?_, by decide, by decide⟩
  intro db rel db1 r1 h purl hp
  obtain ⟨n, v, uris, hn, hv, hu, hr1⟩ := store_some_mkUris h
  rw [mkUris] at hu
  obtain ⟨kv, hkv⟩ := addPurls_some_splitPair hu purl hp
  have hlen : (pySplitComma purl).length = 2 := by
    have := congrArg List.length (splitPair_parts hkv)
    rw [List.length_map] at this
    exact this
  have hcount := pySplitComma_length purl
  rw [hlen] at hcount
  omega

/-- C10 witness: the one-comma necessity at a concrete accepted record. -/
theorem store_project_url_one_comma_witness :
    ("Docs, http://docs.test" : String).data.count ',' = 1 :=
  store_project_url_one_comma.1 DB.empty relDocs dbDocs rowDocs
    (by decide) "Docs, http://docs.test" (by decide)

/-- A run over concatenated package lists processes the first list and, if
no exception was raised there, continues with the second from the reached
state. -/
theorem syncLoop_append_ok (f : Fetcher) :
    ∀ (l1 l2 : List String) (st st1 : SyncState),
      syncLoop f l1 st = (st1, none) →
      syncLoop f (l1 ++ l2) st = syncLoop f l2 st1 := by
  intro l1
  induction l1 with
  | nil =>
    intro l2 st st1 h
    rw [syncLoop] at h
    obtain ⟨rfl, -⟩ := Prod.mk.injEq .. ▸ h
    rfl
  | cons pkg rest ih =>
    intro l2 st st1 h
    rw [List.cons_append, syncLoop]
    rw [syncLoop] at h
    cases hp : f.project pkg with
    | error e =>
      simp only [hp] at h
      exact absurd (Prod.mk.injEq .. ▸ h).2 (by simp)
    | ok rels =>
      simp only [hp] at h ⊢
      cases hst : storeAll st.session rels with
      | error db1 =>
        simp only [hst] at h
        exact absurd (Prod.mk.injEq .. ▸ h).2 (by simp)
      | ok db1 =>
        simp only [hst] at h ⊢
        exact ih l2 _ st1 h

/-- An exception raised while processing the first packages ends the run
there: the remaining packages are never consumed. -/
theorem syncLoop_append_err (f : Fetcher) :
    ∀ (l1 l2 : List String) (st st1 : SyncState) (e : SyncErr),
      syncLoop f l1 st = (st1, some e) →
      syncLoop f (l1 ++ l2) st = (st1, some e) := by
  intro l1
  induction l1 with
  | nil =>
    intro l2 st st1 e h
    rw [syncLoop] at h
    exact absurd (Prod.mk.injEq .. ▸ h).2 (by simp)
  | cons pkg rest ih =>
    intro l2 st st1 e h
    rw [List.cons_append, syncLoop]
    rw [syncLoop] at h
    cases hp : f.project pkg with
    | error e2 =>
      simp only [hp] at h ⊢
      exact h
    | ok rels =>
      simp only [hp] at h ⊢
      cases hst : storeAll st.session rels with
      | error db1 => simp only [hst] at h ⊢; exact h
      | ok db1 => simp only [hst] at h ⊢; exact ih l2 _ st1 e h

/-- C1 (counterexample): contrary to the claim, a `TransportError` while
fetching package B is not isolated: the exception propagates out of
`syncer` and package C — enumerated after B — is never stored; only
package A's data reached the committed state. -/
theorem syncer_transport_not_isolated_cex :
    (syncer fetcherBFails
      { session := DB.empty, committed := DB.empty }).2 =
        some SyncErr.transportError ∧
    ((syncer fetcherBFails
      { session := DB.empty, committed := DB.empty }).1.committed.versions.map
        (fun r => r.project)) = ["A"] := by decide

/-- C1 (amended): a `TransportError` raised by one package's fetch aborts
the whole full-catalog run: packages consumed before the failing one are
stored and committed (the run's state at the failure is exactly the state
the preceding packages produced), the exception propagates out of `syncer`,
and the packages after the failing one are never consumed. -/
theorem syncer_transport_aborts_run :
    ∀ (f : Fetcher) (st st1 : SyncState) (pre post : List String)
      (b : String),
      f.packages = pre ++ b :: post →
      syncLoop f pre st = (st1, none) →
      f.project b = .error () →
      syncer f st = (st1, some SyncErr.transportError) := by
  intro f st st1 pre post b hpkgs hpre hb
  have hloop : syncLoop f f.packages st = (st1, some SyncErr.transportError) := by
    rw [hpkgs, syncLoop_append_ok f pre (b :: post) st st1 hpre, syncLoop]
    simp only [hb]
  rw [syncer, hloop]

/-- C1 witness: the aborting run at the three-package fetcher, reaching the
state committed by package A. -/
theorem syncer_transport_aborts_run_witness :
    syncer fetcherBFails { session := DB.empty, committed := DB.empty } =
      ({ session := { projects := ["A"], versions := [rowA] },
         committed := { projects := ["A"], versions := [rowA] } },
       some SyncErr.transportError) :=
  syncer_transport_aborts_run fetcherBFails
    { session := DB.empty, committed := DB.empty }
    { session := { projects := ["A"], versions := [rowA] },
      committed := { projects := ["A"], versions := [rowA] } }
    ["A"] ["C"] "B" rfl (by decide) rfl

/-- C9 (counterexample): contrary to the claim, a release record missing
its required "name" key is not skipped: the `KeyError` raised inside
`store` propagates out of `syncer`, the run ends at package P, and package
Q is never processed — nothing at all is committed. -/
theorem syncer_missing_name_not_skipped_cex :
    (syncer fetcherMissingName
      { session := DB.empty, committed := DB.empty }).2 =
        some SyncErr.storeError ∧
    (syncer fetcherMissingName
      { session := DB.empty, committed := DB.empty }).1.committed =
        DB.empty := by decide

/-- C9 (amended): a record missing a required key (name or version) makes
`store` raise, and the error is fatal to the run: `store` rejects every
such record, and a store failure inside the full-catalog loop propagates
out of `syncer`, ending the run at that package with its transaction
uncommitted instead of moving on to the next unit. -/
theorem store_missing_required_key_aborts :
    (∀ (db : DB) (rel : Release), rel.name = none ∨ rel.version = none →
      store db rel = none) ∧
    (∀ (f : Fetcher) (st st1 : SyncState) (pre post : List String)
      (b : String) (rels : List Release) (db1 : DB),
      f.packages = pre ++ b :: post →
      syncLoop f pre st = (st1, none) →
      f.project b = .ok rels →
      storeAll st1.session rels = .error db1 →
      syncer f st = ({ st1 with session := db1 }, some SyncErr.storeError)) := by
  constructor
  · intro db rel h
    rcases h with hname | hver
    · simp [store, hname]
    · cases hn : rel.name with
      | none => simp [store, hn]
      | some n =>
        cases hsp : store_project db n with
        | none => simp [store, hn, hsp]
        | some dbp => simp [store, hn, hsp, hver]
  · intro f st st1 pre post b rels db1 hpkgs hpre hb hstore
    have hloop : syncLoop f f.packages st =
        ({ st1 with session := db1 }, some SyncErr.storeError) := by
      rw [hpkgs, syncLoop_append_ok f pre (b :: post) st st1 hpre, syncLoop]
      simp only [hb, hstore]
    rw [syncer, hloop]

/-- C9 witness: the abort at the fetcher whose package P carries a record
with no "name" key, applied together with the store-rejection conjunct. -/
theorem store_missing_required_key_aborts_witness :
    store DB.empty relNoName = none ∧
    syncer fetcherMissingName { session := DB.empty, committed := DB.empty } =
      ({ session := DB.empty, committed := DB.empty },
       some SyncErr.storeError) :=
  ⟨store_missing_required_key_aborts.1 DB.empty relNoName (Or.inl rfl),
    store_missing_required_key_aborts.2 fetcherMissingName
      { session := DB.empty, committed := DB.empty }
      { session := DB.empty, committed := DB.empty }
      [] ["Q"] "P" [relNoName] DB.empty rfl rfl rfl rfl⟩

end Warehouse
